import Mathlib

/-!
# Verification of `src/ultralytics/data/base_m.py` (class `BaseDataset_m`)

A shallow embedding of the dual-modality (RGB + IR) dataset loader:
the file resolver (`get_img_files`), the label class-filter
(`update_labels`), the lazy image loader with its FIFO ring buffer
(`load_image_rgb` / `load_image_ir`), the rectangular batcher
(`set_rectangle`) and the indexing interface (`get_image_and_label`,
`__len__`).  Python machine-level details are modelled exactly where the
claims depend on them: `round` uses Python's round-half-to-even, list
slicing `l[:k]` supports negative stops, and `str.replace` substitutes
every non-overlapping occurrence left to right.
-/

namespace FoRA

/-! ## File resolver (`get_img_files`, lines 110-134) -/

/-- Python's builtin `round` on an exact rational value: round half to even
(banker's rounding), as used in `im_files[: round(len(im_files) * self.fraction)]`. -/
def pythonRound (q : ℚ) : ℤ :=
  if q - ⌊q⌋ < 1/2 then ⌊q⌋
  else if 1/2 < q - ⌊q⌋ then ⌊q⌋ + 1
  else if ⌊q⌋ % 2 = 0 then ⌊q⌋ else ⌊q⌋ + 1

/-- Python list slicing `l[:stop]` with an integer stop: a negative stop counts
from the end, and the result is clamped to the list. -/
def pySliceTake (stop : ℤ) (l : List α) : List α :=
  if stop < 0 then l.take (l.length - (-stop).toNat) else l.take stop.toNat

/-- Lines 132-133: `if self.fraction < 1: im_files = im_files[: round(len(im_files) * self.fraction)]`. -/
def applyFraction (fraction : ℚ) (im_files : List String) : List String :=
  if fraction < 1 then pySliceTake (pythonRound ((im_files.length : ℚ) * fraction)) im_files
  else im_files

/-- Lines 127-134 of `get_img_files` after glob/manifest expansion:
`im_files` is the extension-filtered, sorted candidate list (line 127); the
`assert im_files` empty check (line 129) runs before the fraction truncation
(lines 132-133).  `Except.error` models the raised exception. -/
def getImgFiles (im_files : List String) (fraction : ℚ) : Except String (List String) :=
  if im_files.isEmpty then Except.error "No images found"
  else Except.ok (applyFraction fraction im_files)

/-- Number of images of the constructed dataset: `__len__` returns
`len(self.labels_rgb)` (lines 359-361). -/
def datasetLength (labels_rgb : List α) : ℕ :=
  labels_rgb.length

/-- Python `line.startswith("./")` on the character list of the line. -/
def startsWithDotSlash : List Char → Bool
  | '.' :: '/' :: _ => true
  | _ => false

/-- Python `x.replace("./", parent)`: substitute every non-overlapping
occurrence of the two-character pattern `./`, scanning left to right. -/
def replaceDotSlash (parent : List Char) : List Char → List Char
  | [] => []
  | [c] => [c]
  | c :: d :: rest =>
    if c = '.' ∧ d = '/' then parent ++ replaceDotSlash parent rest
    else c :: replaceDotSlash parent (d :: rest)

/-- `true` when the string contains no occurrence of the pattern `./`. -/
def noDotSlash : List Char → Bool
  | [] => true
  | [_] => true
  | c :: d :: rest => !(c = '.' ∧ d = '/' : Bool) && noDotSlash (d :: rest)

/-- Line 123: `x.replace("./", parent) if x.startswith("./") else x`, the
per-line rewrite applied to manifest entries, where `parent` is
`str(p.parent) + os.sep` for the manifest path `p`. -/
def rewriteLine (parent line : List Char) : List Char :=
  if startsWithDotSlash line then replaceDotSlash parent line else line

/-! ## Label records and the class filter (`update_labels`, lines 136-168) -/

/-- One per-image label record, following the schema documented in
`get_labels_rgb` / `get_labels_ir`.  Per-object rows: `cls` (one class id per
object), `bboxes`, `segments` (polygons, possibly absent as `[]`), `keypoints`
(optional array).  `shape` is `Option` because `set_rectangle` and
`get_image_and_label` pop it.  `im_file_ir` is the key read from IR records by
`get_image_and_label` (absent on records that do not carry it). -/
structure LabelRec where
  im_file : String
  im_file_ir : Option String
  shape : Option (ℕ × ℕ)
  cls : List ℤ
  bboxes : List (ℚ × ℚ × ℚ × ℚ)
  segments : List (List (ℚ × ℚ))
  keypoints : Option (List (List (ℚ × ℚ × ℚ)))
  normalized : Bool
  bbox_format : String
  deriving DecidableEq

/-- Line 145: `j = (cls == include_class_array).any(1)` — the boolean row mask,
true on rows whose class id belongs to the allow-list. -/
def includeMask (incl : List ℤ) (cls : List ℤ) : List Bool :=
  cls.map fun c => decide (c ∈ incl)

/-- NumPy boolean-mask row selection `xs[j]` (and the equivalent comprehension
`[xs[si] for si, idx in enumerate(j) if idx]` used for `segments`), for a mask
aligned with the rows of `xs`. -/
def filterByMask (mask : List Bool) (xs : List α) : List α :=
  (mask.zip xs).filterMap fun p => if p.1 then some p.2 else none

/-- Lines 152-153: `labels[i]["cls"][:, 0] = 0` — single-class mode overwrites
every row's class id with 0. -/
def setSingleCls (cls : List ℤ) : List ℤ :=
  cls.map fun _ => 0

/-- The per-record body of `update_labels` (lines 140-153 for RGB, duplicated
verbatim at lines 155-168 for IR): mask `cls` and `bboxes`, filter `segments`
only when non-empty (`if segments:` truthiness), filter `keypoints` only when
present (`is not None`), then apply single-class mode. -/
def updateRecord (include_class : Option (List ℤ)) (single_cls : Bool) (r : LabelRec) : LabelRec :=
  let r1 :=
    match include_class with
    | none => r
    | some incl =>
      let j := includeMask incl r.cls
      { r with
        cls := filterByMask j r.cls
        bboxes := filterByMask j r.bboxes
        segments := if r.segments.isEmpty then r.segments else filterByMask j r.segments
        keypoints := r.keypoints.map (filterByMask j) }
  if single_cls then { r1 with cls := setSingleCls r1.cls } else r1

/-- `update_labels(include_class)` applied to both modality label lists
(the RGB loop, lines 139-153, and the textually identical IR loop,
lines 154-168). -/
def updateLabels (include_class : Option (List ℤ)) (single_cls : Bool)
    (labels_rgb labels_ir : List LabelRec) : List LabelRec × List LabelRec :=
  (labels_rgb.map (updateRecord include_class single_cls),
   labels_ir.map (updateRecord include_class single_cls))

/-- Row-count consistency of the per-object arrays of a record: `bboxes`,
non-empty `segments` and present `keypoints` all have as many rows as `cls`. -/
def RowsAligned (r : LabelRec) : Prop :=
  r.bboxes.length = r.cls.length ∧
  (¬ r.segments.isEmpty → r.segments.length = r.cls.length) ∧
  (∀ kp, r.keypoints = some kp → kp.length = r.cls.length)

/-! ## Image loader and ring buffer (`load_image_rgb`, lines 170-205;
`load_image_ir` is its verbatim duplicate, lines 229-264) -/

/-- Per-modality loader configuration.  `Img` is the opaque decoded-image
array type.  `imdecode i` abstracts the decode of index `i`'s source (the
`.npy` fast path falling back to `cv2.imread`); `none` models a decode that
yields Python `None` (line 183-184 raises `FileNotFoundError`).  `shapeOf` is
`im.shape[:2]`, i.e. `(height, width)`; `cvResize im (w, h)` is
`cv2.resize(im, (w, h))`. -/
structure LoadCfg (Img : Type) where
  imgsz : ℕ
  augment : Bool
  maxBufferLength : ℕ
  imdecode : ℕ → Option Img
  shapeOf : Img → ℕ × ℕ
  cvResize : Img → ℕ × ℕ → Img

/-- A cache entry: `(im, (h0, w0), resized hw)` as stored in
`self.ims[i], self.im_hw0[i], self.im_hw[i]`. -/
abbrev CacheEntry (Img : Type) : Type := Img × (ℕ × ℕ) × (ℕ × ℕ)

/-- The mutable per-modality loader state: cache slots (`self.ims_*`,
`None` = absent) and the ring buffer of resident indices (`self.buffer_*`). -/
structure LoadState (Img : Type) where
  ims : List (Option (CacheEntry Img))
  buffer : List ℕ

/-- The state right after construction: `self.ims = [None] * ni`,
`self.buffer = []` (lines 92-101). -/
def initState (Img : Type) (ni : ℕ) : LoadState Img :=
  ⟨List.replicate ni none, []⟩

/-- Line 94: `min((self.ni, self.batch_size * 8, 1000)) if self.augment else 0`. -/
def mkMaxBufferLength (augment : Bool) (ni batch_size : ℕ) : ℕ :=
  if augment then min ni (min (batch_size * 8) 1000) else 0

/-- The cache slot of index `i` (out-of-range reads modelled as absent). -/
def slotOf (s : LoadState Img) (i : ℕ) : Option (CacheEntry Img) :=
  s.ims.getD i none

/-- The rect-mode target `(h, w)` of an image of original shape `(h0, w0)`
at target size `imgsz` (lines 187-191): ratio `r = imgsz / max(h0, w0)`;
no resize when `r == 1`; otherwise each side is
`min(ceil(side * r), imgsz)`. -/
def rectResizeHW (imgsz h0 w0 : ℕ) : ℕ × ℕ :=
  let r : ℚ := (imgsz : ℚ) / ((max h0 w0 : ℕ) : ℚ)
  if r = 1 then (h0, w0)
  else (min ⌈(h0 : ℚ) * r⌉.toNat imgsz, min ⌈(w0 : ℚ) * r⌉.toNat imgsz)

/-- The resize step of the loader (lines 186-193): rect mode resizes the long
side to `imgsz` keeping aspect ratio; otherwise the image is stretched to an
exact `imgsz × imgsz` square unless it already is one.  `cv2.resize` takes the
target as `(w, h)`. -/
def resizeStep (cfg : LoadCfg Img) (rect_mode : Bool) (im0 : Img) : Img :=
  let h0 := (cfg.shapeOf im0).1
  let w0 := (cfg.shapeOf im0).2
  if rect_mode then
    let r : ℚ := (cfg.imgsz : ℚ) / ((max h0 w0 : ℕ) : ℚ)
    if r = 1 then im0
    else cfg.cvResize im0 (min ⌈(w0 : ℚ) * r⌉.toNat cfg.imgsz, min ⌈(h0 : ℚ) * r⌉.toNat cfg.imgsz)
  else if h0 = cfg.imgsz ∧ w0 = cfg.imgsz then im0
  else cfg.cvResize im0 (cfg.imgsz, cfg.imgsz)

/-- The cache-miss path of the loader (lines 174-193 and the triple built at
lines 197/203): decode, record the original `(h0, w0)`, resize, and re-read
`im.shape[:2]` for the resized hw. -/
def decodeAndResize (cfg : LoadCfg Img) (rect_mode : Bool) (i : ℕ) : Option (CacheEntry Img) :=
  match cfg.imdecode i with
  | none => none
  | some im0 =>
    let im := resizeStep cfg rect_mode im0
    some (im, cfg.shapeOf im0, cfg.shapeOf im)

/-- `load_image_rgb(i, rect_mode)` (lines 170-205; identical for IR).  Cache
hit returns the stored triple and leaves the state unchanged.  On a miss the
image is decoded and resized; under augmentation the entry is stored, `i` is
appended to the buffer, and when `len(buffer) >= max_buffer_length` the oldest
index is popped (`pop(0)`) and its slots cleared.  `none` models the
`FileNotFoundError` of a failed decode. -/
def load (cfg : LoadCfg Img) (rect_mode : Bool) (i : ℕ) (s : LoadState Img) :
    Option (CacheEntry Img × LoadState Img) :=
  match slotOf s i with
  | some e => some (e, s)
  | none =>
    match decodeAndResize cfg rect_mode i with
    | none => none
    | some entry =>
      if cfg.augment then
        let ims1 := s.ims.set i (some entry)
        let buf1 := s.buffer ++ [i]
        if cfg.maxBufferLength ≤ buf1.length then
          some (entry, ⟨(ims1.set buf1.headI none), buf1.tail⟩)
        else
          some (entry, ⟨ims1, buf1⟩)
      else some (entry, s)

/-- A sequence of loader calls, threading the state; `none` as soon as one
load raises. -/
def loadSeq (cfg : LoadCfg Img) (rect_mode : Bool) : List ℕ → LoadState Img → Option (LoadState Img)
  | [], s => some s
  | i :: rest, s =>
    match load cfg rect_mode i s with
    | none => none
    | some (_, s') => loadSeq cfg rect_mode rest s'

/-! ## Rectangular batcher (`set_rectangle`, lines 308-338) -/

/-- The unit shape of one batch (lines 328-335): from the batch's aspect
ratios (`ar = h / w`), `[maxi, 1]` when the batch is uniformly wide
(`maxi < 1`), `[1, 1/mini]` when uniformly tall (`mini > 1`), else `[1, 1]`.
Batches are non-empty in the code (`nb = bi[-1] + 1`); the `[]` case mirrors
the default `[1, 1]` initialisation of `shapes`. -/
def unitShape (ari : List ℚ) : ℚ × ℚ :=
  match ari with
  | [] => (1, 1)
  | a :: rest =>
    let mini := rest.foldl min a
    let maxi := rest.foldl max a
    if maxi < 1 then (maxi, 1)
    else if 1 < mini then (1, 1 / mini)
    else (1, 1)

/-- Line 337 applied to one unit shape `(sh, sw)`:
`np.ceil(shape * self.imgsz / self.stride + self.pad).astype(int) * self.stride`
per dimension (the ceiling of an exact value is integral, so `astype(int)` is
the identity on it). -/
def toPixelShape (imgsz stride : ℕ) (pad : ℚ) (sh : ℚ × ℚ) : ℤ × ℤ :=
  (⌈sh.1 * imgsz / stride + pad⌉ * stride, ⌈sh.2 * imgsz / stride + pad⌉ * stride)

/-- Consecutive groups of `batch_size` elements: element at position `i` lands
in group `⌊i / batch_size⌋`, exactly the batch partition
`bi = floor(arange(ni) / batch_size)` of line 310 (the code requires
`batch_size ≥ 1`; `assert self.batch_size is not None`, line 88). -/
def chunkList (batch_size : ℕ) : List α → List (List α)
  | [] => []
  | x :: xs => (x :: xs.take (batch_size - 1)) :: chunkList batch_size (xs.drop (batch_size - 1))
termination_by l => l.length
decreasing_by simp only [List.length_cons, List.length_drop]; omega

/-- `set_rectangle`'s batch-shape table (lines 310-337) for one modality:
aspect ratios `h / w` from the original shapes, sorted ascending
(`irect = ar.argsort()` plus reorder; tie order is irrelevant here), grouped
into consecutive batches of `batch_size`, then each batch's unit shape
converted to stride-aligned pixels. -/
def setRectangleBatchShapes (imgsz stride batch_size : ℕ) (pad : ℚ)
    (shapes : List (ℕ × ℕ)) : List (ℤ × ℤ) :=
  let ar := (shapes.map fun s => (s.1 : ℚ) / (s.2 : ℚ)).insertionSort (· ≤ ·)
  ((chunkList batch_size ar).map unitShape).map (toPixelShape imgsz stride pad)

/-! ## Indexing interface (`get_image_and_label`, lines 344-357) -/

/-- The record returned by `get_image_and_label`: the copied RGB label fields
(with `shape` popped) plus the keys added at fetch time.  `rect_shape` is
present only in rect mode. -/
structure FetchedLabel (Img : Type) where
  base : LabelRec
  img_rgb : Img
  img_ir : Img
  ori_shape : ℕ × ℕ
  resized_shape : ℕ × ℕ
  ratio_pad : ℚ × ℚ
  rect_shape : Option (ℤ × ℤ)

/-- The dataset state that `get_image_and_label` reads and threads: both
modalities' label lists, loader configurations and loader states, plus the
rect-mode fields (`self.rect`, `self.batch_shapes`, `self.batch`). -/
structure Dataset (Img : Type) where
  labels_rgb : List LabelRec
  labels_ir : List LabelRec
  cfg_rgb : LoadCfg Img
  cfg_ir : LoadCfg Img
  rgbState : LoadState Img
  irState : LoadState Img
  rect : Bool
  batch_shapes : List (ℤ × ℤ)
  batch : List ℕ

/-- `get_image_and_label(index)` (lines 344-357).  The returned record starts
from a deep copy of `labels_rgb[index]` (value semantics here: the stored
record is itself unchanged), gains `im_file_ir` read from
`labels_ir[index]['im_file_ir']` (a missing key or index is a raised
`KeyError`/`IndexError`, modelled as `none`), pops `shape`, and loads both
images with the loaders' default `rect_mode=True`.  `ratio_pad` is
`(resized_h / orig_h, resized_w / orig_w)`.  `update_labels_info` is the
identity in this base class. -/
def getImageAndLabel (d : Dataset Img) (index : ℕ) :
    Option (FetchedLabel Img × Dataset Img) :=
  match d.labels_rgb.get? index with
  | none => none
  | some lrgb =>
    match d.labels_ir.get? index with
    | none => none
    | some lir =>
      match lir.im_file_ir with
      | none => none
      | some irFile =>
        match load d.cfg_rgb true index d.rgbState with
        | none => none
        | some ((im, hw0, hw), rgbState1) =>
          match load d.cfg_ir true index d.irState with
          | none => none
          | some ((imIr, _, _), irState1) =>
            some
              ({ base := { lrgb with im_file_ir := some irFile, shape := none }
                 img_rgb := im
                 img_ir := imIr
                 ori_shape := hw0
                 resized_shape := hw
                 ratio_pad := ((hw.1 : ℚ) / (hw0.1 : ℚ), (hw.2 : ℚ) / (hw0.2 : ℚ))
                 rect_shape :=
                   if d.rect then (d.batch.get? index).bind d.batch_shapes.get? else none },
               { d with rgbState := rgbState1, irState := irState1 })

/-! ## Concrete instances used by the witnesses and the counterexample -/

/-- A ten-element source file list, for the claim's `fraction=0.5` instance. -/
def demoFiles : List String :=
  ["01", "02", "03", "04", "05", "06", "07", "08", "09", "10"]

/-- A two-object record used to instantiate the label-filter claims. -/
def demoRec : LabelRec :=
  { im_file := "a.jpg", im_file_ir := none, shape := some (1080, 1920)
    cls := [1, 2]
    bboxes := [(0, 0, 1, 1), (0, 0, 2, 2)]
    segments := []
    keypoints := none
    normalized := true, bbox_format := "xywh" }

/-- The loader configuration used by the concrete runs below: four 4×4 images
(so rect mode leaves them untouched), augmentation on, `max_buffer_length = 3`. -/
def demoCfg : LoadCfg (ℕ × ℕ) :=
  { imgsz := 4, augment := true, maxBufferLength := 3,
    imdecode := fun _ => some (4, 4), shapeOf := fun im => im,
    cvResize := fun _ wh => (wh.2, wh.1) }

/-- The cache entry produced for any index by `demoCfg`. -/
def demoEntry : CacheEntry (ℕ × ℕ) := ((4, 4), (4, 4), (4, 4))

/-- A loader state whose slot 0 is resident. -/
def demoHitState : LoadState (ℕ × ℕ) := ⟨[some demoEntry], [0]⟩

/-- The IR-side label record carrying the `im_file_ir` key read by
`get_image_and_label`. -/
def demoRecIr : LabelRec :=
  { demoRec with im_file := "a_ir.jpg", im_file_ir := some "a_ir.jpg" }

/-- A one-image dual-modality dataset over `demoCfg`. -/
def demoDS : Dataset (ℕ × ℕ) :=
  { labels_rgb := [demoRec], labels_ir := [demoRecIr]
    cfg_rgb := demoCfg, cfg_ir := demoCfg
    rgbState := initState (ℕ × ℕ) 1, irState := initState (ℕ × ℕ) 1
    rect := false, batch_shapes := [], batch := [0] }

/-! ## Helper lemmas -/

theorem replaceDotSlash_eq_self (parent : List Char) :
    ∀ l, noDotSlash l = true → replaceDotSlash parent l = l := by
  intro l
  induction l with
  | nil => intro _; rfl
  | cons c cs ih =>
    intro h
    cases cs with
    | nil => rfl
    | cons d rest =>
      simp only [noDotSlash, Bool.and_eq_true, Bool.not_eq_true', decide_eq_false_iff_not] at h
      simp only [replaceDotSlash, if_neg h.1]
      exact congrArg _ (ih h.2)

theorem pythonRound_nonneg (q : ℚ) (h : 0 ≤ q) : 0 ≤ pythonRound q := by
  have hf : (0 : ℤ) ≤ ⌊q⌋ := Int.le_floor.2 (by exact_mod_cast h)
  simp only [pythonRound]
  split_ifs <;> omega

theorem pythonRound_le_ceil (q : ℚ) : pythonRound q ≤ ⌈q⌉ := by
  have hfc : ⌊q⌋ ≤ ⌈q⌉ := Int.floor_le_ceil q
  simp only [pythonRound]
  split_ifs with h1 h2 h3
  · exact hfc
  · have : (⌊q⌋ : ℚ) < q := by linarith
    exact Int.lt_ceil.2 this
  · exact hfc
  · have : (⌊q⌋ : ℚ) < q := by linarith
    exact Int.lt_ceil.2 this

/-- Rewriting the ratio-scaled longer side: `ceil(M * (imgsz / M)) = imgsz`. -/
theorem ceil_self_mul_ratio (imgsz M : ℕ) (hM : 0 < M) :
    ⌈(M : ℚ) * ((imgsz : ℚ) / (M : ℚ))⌉ = (imgsz : ℤ) := by
  have hMQ : (M : ℚ) ≠ 0 := Nat.cast_ne_zero.2 hM.ne'
  have : (M : ℚ) * ((imgsz : ℚ) / (M : ℚ)) = (imgsz : ℚ) := by
    field_simp
  rw [this, Int.ceil_natCast]

/-! ## Claim theorems -/

/-- C2: in rect mode an image of original shape `(h0, w0)` is scaled so that
the longer resized side equals `imgsz` (no resize when the ratio is exactly
1); each resized dimension is the ceiling of the scaled value capped at
`imgsz`; in particular 1080×1920 at target 640 resizes to (360, 640). -/
theorem rect_mode_resize_spec (imgsz h0 w0 : ℕ)
    (hh : 0 < h0) (hw : 0 < w0) (hs : 0 < imgsz) :
    (rectResizeHW imgsz h0 w0).1 =
      min ⌈(h0 : ℚ) * ((imgsz : ℚ) / ((max h0 w0 : ℕ) : ℚ))⌉.toNat imgsz ∧
    (rectResizeHW imgsz h0 w0).2 =
      min ⌈(w0 : ℚ) * ((imgsz : ℚ) / ((max h0 w0 : ℕ) : ℚ))⌉.toNat imgsz ∧
    max (rectResizeHW imgsz h0 w0).1 (rectResizeHW imgsz h0 w0).2 = imgsz ∧
    (rectResizeHW imgsz h0 w0).1 ≤ imgsz ∧ (rectResizeHW imgsz h0 w0).2 ≤ imgsz ∧
    ((imgsz : ℚ) / ((max h0 w0 : ℕ) : ℚ) = 1 → rectResizeHW imgsz h0 w0 = (h0, w0)) ∧
    rectResizeHW 640 1080 1920 = (360, 640) := by
  have hM : 0 < max h0 w0 := lt_max_of_lt_left hh
  have hMQ : ((max h0 w0 : ℕ) : ℚ) ≠ 0 := Nat.cast_ne_zero.2 hM.ne'
  set r : ℚ := (imgsz : ℚ) / ((max h0 w0 : ℕ) : ℚ) with hr
  have hceil : ⌈((max h0 w0 : ℕ) : ℚ) * r⌉ = (imgsz : ℤ) := ceil_self_mul_ratio imgsz _ hM
  by_cases h1 : r = 1
  · have hMeq : ((imgsz : ℕ) : ℚ) = ((max h0 w0 : ℕ) : ℚ) := by
      have := (div_eq_one_iff_eq hMQ).1 h1
      exact_mod_cast this
    have hMeqN : imgsz = max h0 w0 := by exact_mod_cast hMeq
    have hres : rectResizeHW imgsz h0 w0 = (h0, w0) := by
      simp only [rectResizeHW]
      rw [if_pos h1]
    have hle_h : h0 ≤ imgsz := hMeqN ▸ le_max_left h0 w0
    have hle_w : w0 ≤ imgsz := hMeqN ▸ le_max_right h0 w0
    have hch : ⌈(h0 : ℚ) * r⌉.toNat = h0 := by
      rw [h1, mul_one, Int.ceil_natCast, Int.toNat_natCast]
    have hcw : ⌈(w0 : ℚ) * r⌉.toNat = w0 := by
      rw [h1, mul_one, Int.ceil_natCast, Int.toNat_natCast]
    refine ⟨?_, ?_, ?_, ?_, ?_, fun _ => hres, by norm_num [rectResizeHW]; omega⟩
    · rw [hres, hch]; exact (min_eq_left hle_h).symm
    · rw [hres, hcw]; exact (min_eq_left hle_w).symm
    · rw [hres]
      exact hMeqN.symm
    · rw [hres]; exact hle_h
    · rw [hres]; exact hle_w
  · have hres : rectResizeHW imgsz h0 w0 =
        (min ⌈(h0 : ℚ) * r⌉.toNat imgsz, min ⌈(w0 : ℚ) * r⌉.toNat imgsz) := by
      simp only [rectResizeHW]
      rw [if_neg h1]
    have hmax : max (min ⌈(h0 : ℚ) * r⌉.toNat imgsz) (min ⌈(w0 : ℚ) * r⌉.toNat imgsz)
        = imgsz := by
      rcases le_total h0 w0 with hcmp | hcmp
      · have hM2 : max h0 w0 = w0 := max_eq_right hcmp
        have : ⌈(w0 : ℚ) * r⌉ = (imgsz : ℤ) := by rw [hM2] at hceil; exact hceil
        rw [this, Int.toNat_natCast, min_self]
        exact max_eq_right (min_le_right _ _)
      · have hM2 : max h0 w0 = h0 := max_eq_left hcmp
        have : ⌈(h0 : ℚ) * r⌉ = (imgsz : ℤ) := by rw [hM2] at hceil; exact hceil
        rw [this, Int.toNat_natCast, min_self]
        exact max_eq_left (min_le_right _ _)
    refine ⟨by rw [hres], by rw [hres], by rw [hres]; exact hmax, ?_, ?_, fun hc => absurd hc h1,
      by norm_num [rectResizeHW]; omega⟩
    · rw [hres]; exact min_le_right _ _
    · rw [hres]; exact min_le_right _ _

/-- Witness for C2 at the claim's own instance: a 1080×1920 image at target
size 640 resizes so that the longer side is exactly 640. -/
theorem rect_mode_resize_spec_witness :
    0 < 1080 ∧ 0 < 1920 ∧ 0 < 640 ∧
    max (rectResizeHW 640 1080 1920).1 (rectResizeHW 640 1080 1920).2 = 640 :=
  ⟨by decide, by decide, by decide,
    (rect_mode_resize_spec 640 1080 1920 (by decide) (by decide) (by decide)).2.2.1⟩

/-- C5: with a configured fraction in `[0, 1)`, the resolver keeps exactly the
first `round(n * fraction)` entries of the sorted file list (deterministic
prefix truncation, Python `round` = half to even), and the truncated count is
exactly `round(n * fraction)`. -/
theorem fraction_prefix_truncation (files : List String) (fraction : ℚ)
    (hge : 0 ≤ fraction) (hlt : fraction < 1) :
    applyFraction fraction files =
      files.take (pythonRound ((files.length : ℚ) * fraction)).toNat ∧
    (applyFraction fraction files).length =
      (pythonRound ((files.length : ℚ) * fraction)).toNat := by
  have hnn : (0 : ℚ) ≤ (files.length : ℚ) * fraction :=
    mul_nonneg (Nat.cast_nonneg _) hge
  have hk0 : 0 ≤ pythonRound ((files.length : ℚ) * fraction) := pythonRound_nonneg _ hnn
  have htake : applyFraction fraction files =
      files.take (pythonRound ((files.length : ℚ) * fraction)).toNat := by
    simp only [applyFraction, if_pos hlt, pySliceTake, if_neg (not_lt.2 hk0)]
  have hkn : (pythonRound ((files.length : ℚ) * fraction)).toNat ≤ files.length := by
    have hle : (files.length : ℚ) * fraction ≤ (files.length : ℚ) := by
      calc (files.length : ℚ) * fraction ≤ (files.length : ℚ) * 1 :=
            mul_le_mul_of_nonneg_left hlt.le (Nat.cast_nonneg _)
        _ = (files.length : ℚ) := mul_one _
    have hceil : ⌈(files.length : ℚ) * fraction⌉ ≤ (files.length : ℤ) :=
      Int.ceil_le.2 (by exact_mod_cast hle)
    have := le_trans (pythonRound_le_ceil _) hceil
    omega
  refine ⟨htake, ?_⟩
  rw [htake, List.length_take]
  omega


/-- Witness for C5: with `fraction = 0.5` and 10 source images, exactly 5
remain. -/
theorem fraction_prefix_truncation_witness :
    (0 : ℚ) ≤ 1/2 ∧ (1/2 : ℚ) < 1 ∧ (applyFraction (1/2) demoFiles).length = 5 := by
  refine ⟨by norm_num, by norm_num, ?_⟩
  have h := (fraction_prefix_truncation demoFiles (1/2) (by norm_num) (by norm_num)).2
  rw [h]
  norm_num [demoFiles, pythonRound]
  omega

/-- C6: a manifest line beginning with the relative marker `./` is rewritten
relative to the manifest's parent directory: for a remainder containing no
further `./` occurrence, the rewrite is exactly `parent ++ remainder`. -/
theorem manifest_relative_rewrite (parent rest : List Char)
    (h : noDotSlash rest = true) :
    rewriteLine parent ('.' :: '/' :: rest) = parent ++ rest := by
  have hs : startsWithDotSlash ('.' :: '/' :: rest) = true := rfl
  unfold rewriteLine
  rw [if_pos hs]
  have hstep : replaceDotSlash parent ('.' :: '/' :: rest) =
      parent ++ replaceDotSlash parent rest := by
    simp [replaceDotSlash]
  rw [hstep]
  exact congrArg _ (replaceDotSlash_eq_self parent rest h)

/-- Witness for C6 at the claim's instance: the line `./a.jpg` in a manifest
`/data/set/list.txt` (parent directory prefix `/data/set/`) resolves to
`/data/set/a.jpg`. -/
theorem manifest_relative_rewrite_witness :
    noDotSlash "a.jpg".toList = true ∧
    rewriteLine "/data/set/".toList "./a.jpg".toList = "/data/set/a.jpg".toList := by
  refine ⟨by decide, ?_⟩
  have h := manifest_relative_rewrite "/data/set/".toList "a.jpg".toList (by decide)
  rw [show ("./a.jpg".toList) = '.' :: '/' :: "a.jpg".toList from rfl]
  rw [h]
  rfl

/-- C10: the `assert im_files` empty check runs before fraction truncation, so
a non-empty matched list whose truncation count `round(n * fraction)` is 0
yields `ok []` — no "No images found" error — and a dataset built from an
index-aligned label list then has length 0. -/
theorem no_images_check_precedes_truncation (matched : List String) (fraction : ℚ)
    (hne : matched.isEmpty = false) (hlt : fraction < 1)
    (hzero : pythonRound ((matched.length : ℚ) * fraction) = 0) :
    getImgFiles matched fraction = Except.ok [] ∧
    (∀ labels : List LabelRec, labels.length = ([] : List String).length →
      datasetLength labels = 0) := by
  constructor
  · have hcond : ¬ (matched.isEmpty = true) := by simp [hne]
    unfold getImgFiles
    rw [if_neg hcond]
    unfold applyFraction pySliceTake
    rw [if_pos hlt, hzero]
    simp
  · intro labels hl
    simpa [datasetLength] using hl

/-- Witness for C10: one matched image with `fraction = 0.5` (Python
`round(0.5) = 0`) produces `ok []` without raising. -/
theorem no_images_check_precedes_truncation_witness :
    (["a.jpg"] : List String).isEmpty = false ∧ (1/2 : ℚ) < 1 ∧
    pythonRound (((["a.jpg"] : List String).length : ℚ) * (1/2)) = 0 ∧
    getImgFiles ["a.jpg"] (1/2) = Except.ok [] := by
  have hz : pythonRound (((["a.jpg"] : List String).length : ℚ) * (1/2)) = 0 := by
    norm_num [pythonRound]
  exact ⟨rfl, by norm_num, hz,
    (no_images_check_precedes_truncation ["a.jpg"] (1/2) rfl (by norm_num) hz).1⟩

/-- C4: every entry of the batch-shape table is the per-dimension
`ceil(shape * imgsz / stride + pad) * stride` of its batch's unit shape, and
is therefore a multiple of `stride` in both height and width. -/
theorem batch_shapes_stride_aligned (imgsz stride batch_size : ℕ) (pad : ℚ)
    (shapes : List (ℕ × ℕ)) :
    ∀ p ∈ setRectangleBatchShapes imgsz stride batch_size pad shapes,
      (∃ ari ∈ chunkList batch_size
          ((shapes.map fun s => (s.1 : ℚ) / (s.2 : ℚ)).insertionSort (· ≤ ·)),
          p = toPixelShape imgsz stride pad (unitShape ari)) ∧
      (stride : ℤ) ∣ p.1 ∧ (stride : ℤ) ∣ p.2 := by
  intro p hp
  simp only [setRectangleBatchShapes, List.map_map, List.mem_map, Function.comp] at hp
  obtain ⟨ari, hmem, rfl⟩ := hp
  exact ⟨⟨ari, hmem, rfl⟩, dvd_mul_left _ _, dvd_mul_left _ _⟩

/-- Witness for C4: a single 1080×1920 image at `imgsz=640`, `stride=32`,
`pad=0.5` gives the batch shape `(384, 672)`, both multiples of 32. -/
theorem batch_shapes_stride_aligned_witness :
    ((384 : ℤ), (672 : ℤ)) ∈ setRectangleBatchShapes 640 32 2 (1/2) [(1080, 1920)] ∧
    (32 : ℤ) ∣ 384 ∧ (32 : ℤ) ∣ 672 := by
  have hset : setRectangleBatchShapes 640 32 2 (1/2) [(1080, 1920)] =
      [((384 : ℤ), (672 : ℤ))] := by
    simp only [setRectangleBatchShapes, List.map_cons, List.map_nil,
      List.insertionSort, List.orderedInsert, chunkList, List.take_nil, List.drop_nil,
      unitShape, toPixelShape]
    norm_num
    refine ⟨?_, ?_⟩
    · rw [show ⌈(47 : ℚ) / 4⌉ = (12 : ℤ) from by rw [Int.ceil_eq_iff] <;> norm_num]
      norm_num
    · rw [show ⌈(41 : ℚ) / 2⌉ = (21 : ℤ) from by rw [Int.ceil_eq_iff] <;> norm_num]
      norm_num
  have hmem : ((384 : ℤ), (672 : ℤ)) ∈ setRectangleBatchShapes 640 32 2 (1/2) [(1080, 1920)] := by
    rw [hset]; exact List.mem_singleton_self _
  exact ⟨hmem,
    (batch_shapes_stride_aligned 640 32 2 (1/2) [(1080, 1920)] _ hmem).2.1,
    (batch_shapes_stride_aligned 640 32 2 (1/2) [(1080, 1920)] _ hmem).2.2⟩

theorem filterByMask_length {α : Type} (mask : List Bool) (xs : List α)
    (h : xs.length = mask.length) :
    (filterByMask mask xs).length = mask.count true := by
  induction mask generalizing xs with
  | nil => simp [filterByMask]
  | cons b bs ih =>
    cases xs with
    | nil => simp at h
    | cons x xs' =>
      simp only [List.length_cons, Nat.succ_inj] at h
      cases b <;>
        simp [filterByMask, List.count_cons, ih xs' h, List.zip_cons_cons] <;>
        simpa [filterByMask] using ih xs' h

theorem includeMask_length (incl : List ℤ) (cls : List ℤ) :
    (includeMask incl cls).length = cls.length :=
  List.length_map _ _

/-- The class filter preserves row alignment on a single record. -/
theorem updateRecord_aligned (include_class : Option (List ℤ)) (single_cls : Bool)
    (r : LabelRec) (h : RowsAligned r) :
    RowsAligned (updateRecord include_class single_cls r) := by
  obtain ⟨hb, hsg, hk⟩ := h
  have key : ∀ r' : LabelRec, RowsAligned r' →
      RowsAligned (if single_cls then { r' with cls := setSingleCls r'.cls } else r') := by
    intro r' hr'
    obtain ⟨hb', hs', hk'⟩ := hr'
    cases single_cls
    · exact ⟨hb', hs', hk'⟩
    · refine ⟨?_, ?_, ?_⟩
      · show r'.bboxes.length = (setSingleCls r'.cls).length
        simp only [setSingleCls, List.length_map]
        exact hb'
      · intro hc
        show r'.segments.length = (setSingleCls r'.cls).length
        simp only [setSingleCls, List.length_map]
        exact hs' hc
      · intro kp hkp
        show kp.length = (setSingleCls r'.cls).length
        simp only [setSingleCls, List.length_map]
        exact hk' kp hkp
  cases include_class with
  | none => exact key r ⟨hb, hsg, hk⟩
  | some incl =>
    show RowsAligned
      (if single_cls then
        { r with
          cls := setSingleCls (filterByMask (includeMask incl r.cls) r.cls)
          bboxes := filterByMask (includeMask incl r.cls) r.bboxes
          segments := if r.segments.isEmpty then r.segments
            else filterByMask (includeMask incl r.cls) r.segments
          keypoints := r.keypoints.map (filterByMask (includeMask incl r.cls)) }
      else
        { r with
          cls := filterByMask (includeMask incl r.cls) r.cls
          bboxes := filterByMask (includeMask incl r.cls) r.bboxes
          segments := if r.segments.isEmpty then r.segments
            else filterByMask (includeMask incl r.cls) r.segments
          keypoints := r.keypoints.map (filterByMask (includeMask incl r.cls)) })
    apply key
    have hjlen : (includeMask incl r.cls).length = r.cls.length := includeMask_length incl r.cls
    have hcls : (filterByMask (includeMask incl r.cls) r.cls).length =
        (includeMask incl r.cls).count true :=
      filterByMask_length _ _ hjlen.symm
    refine ⟨?_, ?_, ?_⟩
    · show (filterByMask (includeMask incl r.cls) r.bboxes).length =
        (filterByMask (includeMask incl r.cls) r.cls).length
      rw [filterByMask_length _ _ (by rw [hb, hjlen]), hcls]
    · show ¬ (if r.segments.isEmpty then r.segments
            else filterByMask (includeMask incl r.cls) r.segments).isEmpty = true →
        (if r.segments.isEmpty then r.segments
            else filterByMask (includeMask incl r.cls) r.segments).length =
          (filterByMask (includeMask incl r.cls) r.cls).length
      by_cases hemp : r.segments.isEmpty
      · rw [if_pos hemp]
        intro hc
        exact absurd hemp hc
      · rw [if_neg hemp]
        intro _
        rw [filterByMask_length _ _ (by rw [hsg hemp, hjlen]), hcls]
    · intro kp hkp
      have hkp' : r.keypoints.map (filterByMask (includeMask incl r.cls)) = some kp := hkp
      rw [Option.map_eq_some'] at hkp'
      obtain ⟨kp0, hkp0, hkpf⟩ := hkp'
      show kp.length = (filterByMask (includeMask incl r.cls) r.cls).length
      rw [← hkpf, filterByMask_length _ _ (by rw [hk kp0 hkp0, hjlen]), hcls]

/-- C3: filtering by a class allow-list applies one identical boolean row
mask to `cls`, `bboxes`, non-empty `segments` and present `keypoints`, so
`update_labels` preserves mutual row-count consistency in every record of
both the RGB and the IR label lists. -/
theorem update_labels_rows_aligned (include_class : Option (List ℤ)) (single_cls : Bool)
    (labels_rgb labels_ir : List LabelRec)
    (hrgb : ∀ r ∈ labels_rgb, RowsAligned r) (hir : ∀ r ∈ labels_ir, RowsAligned r) :
    (∀ r ∈ (updateLabels include_class single_cls labels_rgb labels_ir).1, RowsAligned r) ∧
    (∀ r ∈ (updateLabels include_class single_cls labels_rgb labels_ir).2, RowsAligned r) := by
  constructor
  · intro r hr
    simp only [updateLabels, List.mem_map] at hr
    obtain ⟨r0, hr0, rfl⟩ := hr
    exact updateRecord_aligned _ _ _ (hrgb r0 hr0)
  · intro r hr
    simp only [updateLabels, List.mem_map] at hr
    obtain ⟨r0, hr0, rfl⟩ := hr
    exact updateRecord_aligned _ _ _ (hir r0 hr0)


/-- Witness for C3: filtering the two-object demo record by the allow-list
`[1]` keeps every per-object array mutually consistent. -/
theorem update_labels_rows_aligned_witness :
    (∀ r ∈ [demoRec], RowsAligned r) ∧
    (∀ r ∈ (updateLabels (some [1]) false [demoRec] [demoRec]).1, RowsAligned r) := by
  have hal : ∀ r ∈ [demoRec], RowsAligned r := by
    intro r hr
    rw [List.mem_singleton] at hr
    subst hr
    refine ⟨rfl, ?_, ?_⟩
    · intro hc
      exact absurd rfl hc
    · intro kp hkp
      cases hkp
  exact ⟨hal, (update_labels_rows_aligned (some [1]) false [demoRec] [demoRec] hal hal).1⟩

/-- On a cache miss the entry a successful load returns is exactly the
decode-and-resize result of the requested index. -/
theorem load_miss_entry (cfg : LoadCfg Img) (rect_mode : Bool) (i : ℕ)
    (s : LoadState Img) (hn : slotOf s i = none) (e : CacheEntry Img)
    (s' : LoadState Img) (h : load cfg rect_mode i s = some (e, s')) :
    decodeAndResize cfg rect_mode i = some e := by
  cases hd : decodeAndResize cfg rect_mode i with
  | none =>
    simp only [load, hn, hd] at h
    cases h
  | some entry =>
    simp only [load, hn, hd] at h
    split_ifs at h with h1 h2 <;>
      (rw [Option.some_inj, Prod.mk.injEq] at h; exact congrArg some h.1)

/-- C7: a resident cache slot is returned unchanged — the stored triple, with
the whole loader state untouched, hence no re-decode; and when the slot of
`i` is absent (in particular after the ring buffer evicted `i`), a successful
load returns exactly the freshly decoded-and-resized entry of index `i`,
never stale or empty data. -/
theorem load_cache_hit_and_redecode (Img : Type) (cfg : LoadCfg Img) (rect_mode : Bool)
    (i : ℕ) (s : LoadState Img) :
    (∀ e, slotOf s i = some e → load cfg rect_mode i s = some (e, s)) ∧
    (slotOf s i = none →
      ∀ e s', load cfg rect_mode i s = some (e, s') →
        decodeAndResize cfg rect_mode i = some e) := by
  constructor
  · intro e he
    unfold load
    rw [he]
  · intro hn e s' h
    exact load_miss_entry cfg rect_mode i s hn e s' h




/-- Witness for C7: with slot 0 resident, the load returns the stored entry
and leaves the state unchanged. -/
theorem load_cache_hit_and_redecode_witness :
    slotOf demoHitState 0 = some demoEntry ∧
    load demoCfg true 0 demoHitState = some (demoEntry, demoHitState) :=
  ⟨rfl, (load_cache_hit_and_redecode (ℕ × ℕ) demoCfg true 0 demoHitState).1 demoEntry rfl⟩

/-- C8: `get_image_and_label` builds its result from a copy of the RGB label
record at `index` — the stored label lists are left untouched (the deep copy
of the Python code, expressed in value semantics) — and injects into that copy,
under the `im_file_ir` key, the IR image-file path read from the IR label
record at the same index. -/
theorem get_image_and_label_copy_inject (Img : Type) (d : Dataset Img) (index : ℕ)
    (out : FetchedLabel Img) (d' : Dataset Img)
    (h : getImageAndLabel d index = some (out, d')) :
    d'.labels_rgb = d.labels_rgb ∧ d'.labels_ir = d.labels_ir ∧
    ∃ lrgb lir irFile,
      d.labels_rgb.get? index = some lrgb ∧
      d.labels_ir.get? index = some lir ∧
      lir.im_file_ir = some irFile ∧
      out.base = { lrgb with im_file_ir := some irFile, shape := none } := by
  cases hg : d.labels_rgb.get? index with
  | none => simp only [getImageAndLabel, hg] at h; cases h
  | some lrgb =>
  cases hi : d.labels_ir.get? index with
  | none => simp only [getImageAndLabel, hg, hi] at h; cases h
  | some lir =>
  cases hf : lir.im_file_ir with
  | none => simp only [getImageAndLabel, hg, hi, hf] at h; cases h
  | some irFile =>
  cases hl1 : load d.cfg_rgb true index d.rgbState with
  | none => simp only [getImageAndLabel, hg, hi, hf, hl1] at h; cases h
  | some p1 =>
  obtain ⟨⟨im, hw0, hw⟩, rgbState1⟩ := p1
  cases hl2 : load d.cfg_ir true index d.irState with
  | none => simp only [getImageAndLabel, hg, hi, hf, hl1, hl2] at h; cases h
  | some p2 =>
  obtain ⟨⟨imIr, q1, q2⟩, irState1⟩ := p2
  simp only [getImageAndLabel, hg, hi, hf, hl1, hl2, Option.some_inj, Prod.mk.injEq] at h
  refine ⟨?_, ?_, lrgb, lir, irFile, rfl, rfl, hf, ?_⟩
  · rw [← h.2]
  · rw [← h.2]
  · rw [← h.1]



/-- Witness for C8: fetching index 0 of the demo dataset leaves the stored
label lists unchanged. -/
theorem get_image_and_label_copy_inject_witness :
    ∃ out dd, getImageAndLabel demoDS 0 = some (out, dd) ∧
      dd.labels_rgb = demoDS.labels_rgb ∧ dd.labels_ir = demoDS.labels_ir := by
  cases hh : getImageAndLabel demoDS 0 with
  | none =>
    have hs : (getImageAndLabel demoDS 0).isSome = true := rfl
    rw [hh] at hs
    cases hs
  | some p =>
    obtain ⟨out, dd⟩ := p
    have hc := get_image_and_label_copy_inject (ℕ × ℕ) demoDS 0 out dd hh
    exact ⟨out, dd, rfl, hc.1, hc.2.1⟩

/-- Under the `cv2.resize` shape contract (`resize(im, (w, h))` has shape
`(h, w)`), the shape of a rect-mode-resized image is `rectResizeHW` of its
original shape. -/
theorem shapeOf_resizeStep_rect (cfg : LoadCfg Img) (im0 : Img)
    (hcv : ∀ im wh, cfg.shapeOf (cfg.cvResize im wh) = (wh.2, wh.1)) :
    cfg.shapeOf (resizeStep cfg true im0) =
      rectResizeHW cfg.imgsz (cfg.shapeOf im0).1 (cfg.shapeOf im0).2 := by
  unfold resizeStep rectResizeHW
  by_cases hr : (cfg.imgsz : ℚ) /
      (((max (cfg.shapeOf im0).1 (cfg.shapeOf im0).2 : ℕ)) : ℚ) = 1
  · rw [if_pos rfl, if_pos hr, if_pos hr]
  · rw [if_pos rfl, if_neg hr, if_neg hr, hcv]

/-- A successful rect-mode decode records as resized hw exactly the
`rectResizeHW` of the recorded original hw. -/
theorem decodeAndResize_rect_shape (cfg : LoadCfg Img) (i : ℕ) (e : CacheEntry Img)
    (hcv : ∀ im wh, cfg.shapeOf (cfg.cvResize im wh) = (wh.2, wh.1))
    (h : decodeAndResize cfg true i = some e) :
    e.2.2 = rectResizeHW cfg.imgsz e.2.1.1 e.2.1.2 := by
  cases hd : cfg.imdecode i with
  | none =>
    simp only [decodeAndResize, hd] at h
    cases h
  | some im0 =>
    simp only [decodeAndResize, hd, Option.some_inj] at h
    rw [← h]
    exact shapeOf_resizeStep_rect cfg im0 hcv

/-- C9: `get_image_and_label` invokes both modality loaders with the default
`rect_mode=True`, whatever the value of the dataset's `rect` flag: on a cache
miss the fetched RGB triple and IR image are exactly the rect-mode
decode-and-resize results, and (under the `cv2.resize` shape contract) the
recorded resized shape follows the aspect-preserving long-side policy
`rectResizeHW` — the stretch-to-square branch is never taken through the
indexing interface. -/
theorem fetch_always_rect_mode (Img : Type) (d : Dataset Img) (index : ℕ)
    (out : FetchedLabel Img) (d' : Dataset Img)
    (hrgb : slotOf d.rgbState index = none)
    (hir : slotOf d.irState index = none)
    (hcv : ∀ im wh, d.cfg_rgb.shapeOf (d.cfg_rgb.cvResize im wh) = (wh.2, wh.1))
    (h : getImageAndLabel d index = some (out, d')) :
    decodeAndResize d.cfg_rgb true index =
      some (out.img_rgb, out.ori_shape, out.resized_shape) ∧
    (∃ eIr, decodeAndResize d.cfg_ir true index = some eIr ∧ eIr.1 = out.img_ir) ∧
    out.resized_shape = rectResizeHW d.cfg_rgb.imgsz out.ori_shape.1 out.ori_shape.2 := by
  cases hg : d.labels_rgb.get? index with
  | none => simp only [getImageAndLabel, hg] at h; cases h
  | some lrgb =>
  cases hi : d.labels_ir.get? index with
  | none => simp only [getImageAndLabel, hg, hi] at h; cases h
  | some lir =>
  cases hf : lir.im_file_ir with
  | none => simp only [getImageAndLabel, hg, hi, hf] at h; cases h
  | some irFile =>
  cases hl1 : load d.cfg_rgb true index d.rgbState with
  | none => simp only [getImageAndLabel, hg, hi, hf, hl1] at h; cases h
  | some p1 =>
  obtain ⟨⟨im, hw0, hw⟩, rgbState1⟩ := p1
  cases hl2 : load d.cfg_ir true index d.irState with
  | none => simp only [getImageAndLabel, hg, hi, hf, hl1, hl2] at h; cases h
  | some p2 =>
  obtain ⟨⟨imIr, q1, q2⟩, irState1⟩ := p2
  simp only [getImageAndLabel, hg, hi, hf, hl1, hl2, Option.some_inj, Prod.mk.injEq] at h
  have hdec1 : decodeAndResize d.cfg_rgb true index = some (im, hw0, hw) :=
    load_miss_entry d.cfg_rgb true index d.rgbState hrgb _ _ hl1
  have hdec2 : decodeAndResize d.cfg_ir true index = some (imIr, q1, q2) :=
    load_miss_entry d.cfg_ir true index d.irState hir _ _ hl2
  have hshape : hw = rectResizeHW d.cfg_rgb.imgsz hw0.1 hw0.2 :=
    decodeAndResize_rect_shape d.cfg_rgb index (im, hw0, hw) hcv hdec1
  have hout : out.img_rgb = im ∧ out.ori_shape = hw0 ∧ out.resized_shape = hw := by
    rw [← h.1]
    exact ⟨rfl, rfl, rfl⟩
  have houtIr : out.img_ir = imIr := by
    rw [← h.1]
  refine ⟨?_, ⟨(imIr, q1, q2), hdec2, houtIr.symm⟩, ?_⟩
  · rw [hout.1, hout.2.1, hout.2.2]
    exact hdec1
  · rw [hout.2.1, hout.2.2]
    exact hshape

/-- Witness for C9: fetching index 0 of the demo dataset (empty caches)
decodes the RGB image through the rect-mode path. -/
theorem fetch_always_rect_mode_witness :
    slotOf demoDS.rgbState 0 = none ∧
    ∃ out dd, getImageAndLabel demoDS 0 = some (out, dd) ∧
      decodeAndResize demoDS.cfg_rgb true 0 =
        some (out.img_rgb, out.ori_shape, out.resized_shape) := by
  refine ⟨rfl, ?_⟩
  cases hh : getImageAndLabel demoDS 0 with
  | none =>
    have hs : (getImageAndLabel demoDS 0).isSome = true := rfl
    rw [hh] at hs
    cases hs
  | some p =>
    obtain ⟨out, dd⟩ := p
    have hc := fetch_always_rect_mode (ℕ × ℕ) demoDS 0 out dd rfl rfl
      (fun im wh => rfl) hh
    exact ⟨out, dd, rfl, hc.1⟩

theorem slot_set_self (ims : List (Option (CacheEntry Img))) (buf : List ℕ)
    (i : ℕ) (v : Option (CacheEntry Img)) (h : i < ims.length) :
    slotOf ⟨ims.set i v, buf⟩ i = v := by
  show (ims.set i v).getD i none = v
  rw [List.getD_eq_getElem?_getD, List.getElem?_set_self', List.getElem?_eq_getElem h]
  rfl

theorem slot_set_ne (ims : List (Option (CacheEntry Img))) (buf buf2 : List ℕ)
    (i j : ℕ) (v : Option (CacheEntry Img)) (h : i ≠ j) :
    slotOf ⟨ims.set i v, buf⟩ j = slotOf ⟨ims, buf2⟩ j := by
  show (ims.set i v).getD j none = ims.getD j none
  rw [List.getD_eq_getElem?_getD, List.getElem?_set_ne h, ← List.getD_eq_getElem?_getD]

/-- One load never grows the ring buffer beyond `max_buffer_length`. -/
theorem load_buffer_le (cfg : LoadCfg Img) (rm : Bool) (i : ℕ) (s : LoadState Img)
    (e : CacheEntry Img) (s' : LoadState Img)
    (h : load cfg rm i s = some (e, s'))
    (hb : s.buffer.length ≤ cfg.maxBufferLength) :
    s'.buffer.length ≤ cfg.maxBufferLength := by
  cases hslot : slotOf s i with
  | some e0 =>
    simp only [load, hslot, Option.some_inj, Prod.mk.injEq] at h
    rw [← h.2]
    exact hb
  | none =>
    cases hd : decodeAndResize cfg rm i with
    | none =>
      simp only [load, hslot, hd] at h
      cases h
    | some entry =>
      simp only [load, hslot, hd] at h
      split_ifs at h with h1 h2 <;>
        (rw [Option.some_inj, Prod.mk.injEq] at h; rw [← h.2])
      · simp only [List.length_tail, List.length_append, List.length_cons,
          List.length_nil] at h1 ⊢
        omega
      · simp only [List.length_append, List.length_cons, List.length_nil] at h2 ⊢
        omega
      · exact hb

/-- Any run of loads keeps the ring buffer within `max_buffer_length`. -/
theorem loadSeq_buffer_le (cfg : LoadCfg Img) (rm : Bool) :
    ∀ (l : List ℕ) (s s' : LoadState Img),
      loadSeq cfg rm l s = some s' →
      s.buffer.length ≤ cfg.maxBufferLength →
      s'.buffer.length ≤ cfg.maxBufferLength := by
  intro l
  induction l with
  | nil =>
    intro s s' h hb
    simp only [loadSeq, Option.some_inj] at h
    rw [← h]
    exact hb
  | cons i rest ih =>
    intro s s' h hb
    cases hl : load cfg rm i s with
    | none =>
      simp only [loadSeq, hl] at h
      cases h
    | some p =>
      obtain ⟨e, s1⟩ := p
      simp only [loadSeq, hl] at h
      exact ih s1 s' h (load_buffer_le cfg rm i s e s1 hl hb)

theorem loadSeq_append (cfg : LoadCfg Img) (rm : Bool) (l1 l2 : List ℕ) :
    ∀ s : LoadState Img, loadSeq cfg rm (l1 ++ l2) s =
      (loadSeq cfg rm l1 s).bind (loadSeq cfg rm l2) := by
  induction l1 with
  | nil => intro s; simp [loadSeq]
  | cons i rest ih =>
    intro s
    simp only [List.cons_append, loadSeq]
    cases load cfg rm i s with
    | none => rfl
    | some p => exact ih p.2

/-- Running the loader over a list of fresh, pairwise-distinct, in-range,
decodable indices starting from an empty buffer.  Because line 199 tests
`len(buffer) >= max_buffer_length` after the append, an eviction fires at
every load from the `max_buffer_length`-th on: writing `e = len + 1 -
max_buffer_length` (truncated), the first `e` loaded indices end up evicted
in FIFO order, the remaining ones are resident, and the buffer holds exactly
the survivors. -/
theorem loadSeq_fresh_run (cfg : LoadCfg Img) (rm : Bool)
    (haug : cfg.augment = true) (hM : 2 ≤ cfg.maxBufferLength) :
    ∀ (l : List ℕ) (s : LoadState Img),
      l.Nodup →
      (∀ i ∈ l, i < s.ims.length) →
      (∀ i ∈ l, slotOf s i = none) →
      (∀ i ∈ l, (cfg.imdecode i).isSome = true) →
      s.buffer = [] →
      ∃ s', loadSeq cfg rm l s = some s' ∧
        s'.ims.length = s.ims.length ∧
        s'.buffer = l.drop (l.length + 1 - cfg.maxBufferLength) ∧
        (∀ i ∈ l.take (l.length + 1 - cfg.maxBufferLength), slotOf s' i = none) ∧
        (∀ i ∈ l.drop (l.length + 1 - cfg.maxBufferLength), (slotOf s' i).isSome = true) ∧
        (∀ j, j ∉ l → slotOf s' j = slotOf s j) := by
  intro l
  induction l using List.reverseRecOn with
  | nil =>
    intro s _ _ _ _ hbuf
    refine ⟨s, rfl, rfl, ?_, ?_, ?_, fun j _ => rfl⟩
    · rw [hbuf, List.drop_nil]
    · intro i hi
      simp at hi
    · intro i hi
      simp at hi
  | append_singleton l a ih =>
    intro s hnd hrange hfresh hdec hbuf
    rw [List.nodup_append] at hnd
    obtain ⟨hndl, -, hdisj⟩ := hnd
    have hanl : a ∉ l := fun hx => hdisj hx (List.mem_singleton_self a)
    obtain ⟨s1, hrun1, hlen1, hbuf1, htake1, hdrop1, hunch1⟩ :=
      ih s hndl (fun i hi => hrange i (List.mem_append_left _ hi))
        (fun i hi => hfresh i (List.mem_append_left _ hi))
        (fun i hi => hdec i (List.mem_append_left _ hi)) hbuf
    have hamem : a ∈ l ++ [a] := List.mem_append_right _ (List.mem_singleton_self a)
    have hsa : slotOf s1 a = none := by
      rw [hunch1 a hanl]
      exact hfresh a hamem
    obtain ⟨im0, him0⟩ := Option.isSome_iff_exists.1 (hdec a hamem)
    have hdecA : decodeAndResize cfg rm a =
        some (resizeStep cfg rm im0, cfg.shapeOf im0, cfg.shapeOf (resizeStep cfg rm im0)) := by
      simp [decodeAndResize, him0]
    have harange : a < s1.ims.length := by
      rw [hlen1]
      exact hrange a hamem
    rw [loadSeq_append cfg rm l [a] s, hrun1]
    rcases Nat.lt_or_ge (l.length + 1) cfg.maxBufferLength with hlt | hge
    · -- no eviction at this step
      have he0 : l.length + 1 - cfg.maxBufferLength = 0 := by omega
      have he0' : (l ++ [a]).length + 1 - cfg.maxBufferLength = 0 := by
        simp only [List.length_append, List.length_cons, List.length_nil]
        omega
      have hbufl : s1.buffer = l := by rw [hbuf1, he0, List.drop_zero]
      have hcond : ¬ (cfg.maxBufferLength ≤ (s1.buffer ++ [a]).length) := by
        rw [hbufl]
        simp only [List.length_append, List.length_cons, List.length_nil]
        omega
      have hload : load cfg rm a s1 =
          some ((resizeStep cfg rm im0, cfg.shapeOf im0, cfg.shapeOf (resizeStep cfg rm im0)),
            ⟨s1.ims.set a (some (resizeStep cfg rm im0, cfg.shapeOf im0,
              cfg.shapeOf (resizeStep cfg rm im0))), s1.buffer ++ [a]⟩) := by
        simp only [load, hsa, hdecA, haug, if_true, if_neg hcond]
      refine ⟨_, by simp only [Option.some_bind, loadSeq, hload]; rfl, ?_, ?_, ?_, ?_, ?_⟩
      · simp only [List.length_set]
        exact hlen1
      · show s1.buffer ++ [a] = (l ++ [a]).drop ((l ++ [a]).length + 1 - cfg.maxBufferLength)
        rw [he0', List.drop_zero, hbufl]
      · rw [he0', List.take_zero]
        intro i hi
        simp at hi
      · rw [he0', List.drop_zero]
        intro i hi
        rcases List.mem_append.1 hi with hil | hia
        · have hia2 : i ≠ a := fun hh => hanl (hh ▸ hil)
          show (slotOf ⟨s1.ims.set a _, s1.buffer ++ [a]⟩ i).isSome = true
          rw [slot_set_ne s1.ims (s1.buffer ++ [a]) s1.buffer a i _ (fun hh => hia2 hh.symm)]
          exact hdrop1 i (by rw [he0, List.drop_zero]; exact hil)
        · rw [List.mem_singleton] at hia
          subst hia
          show (slotOf ⟨s1.ims.set i _, s1.buffer ++ [i]⟩ i).isSome = true
          rw [slot_set_self s1.ims (s1.buffer ++ [i]) i _ harange]
          rfl
      · intro j hj
        have hjl : j ∉ l := fun hh => hj (List.mem_append_left _ hh)
        have hja : j ≠ a := fun hh => hj (hh ▸ hamem)
        show slotOf ⟨s1.ims.set a _, s1.buffer ++ [a]⟩ j = slotOf s j
        rw [slot_set_ne s1.ims (s1.buffer ++ [a]) s1.buffer a j _ (fun hh => hja hh.symm)]
        exact hunch1 j hjl
    · -- eviction fires at this step
      have hek : l.length + 1 - cfg.maxBufferLength < l.length := by omega
      have hdropCons : l.drop (l.length + 1 - cfg.maxBufferLength) =
          l.get ⟨l.length + 1 - cfg.maxBufferLength, hek⟩ ::
            l.drop (l.length + 1 - cfg.maxBufferLength + 1) := by
        rw [List.drop_eq_getElem_cons hek]
        rfl
      have hxmem : l.get ⟨l.length + 1 - cfg.maxBufferLength, hek⟩ ∈ l :=
        List.get_mem l _ _
      have hsplit : l = l.take (l.length + 1 - cfg.maxBufferLength) ++
          l.get ⟨l.length + 1 - cfg.maxBufferLength, hek⟩ ::
            l.drop (l.length + 1 - cfg.maxBufferLength + 1) := by
        conv_lhs => rw [← List.take_append_drop (l.length + 1 - cfg.maxBufferLength) l]
        rw [hdropCons]
      have hndsplit := hsplit ▸ hndl
      rw [List.nodup_append] at hndsplit
      obtain ⟨-, hndcons, hdisj2⟩ := hndsplit
      have hxnotake : l.get ⟨l.length + 1 - cfg.maxBufferLength, hek⟩ ∉
          l.take (l.length + 1 - cfg.maxBufferLength) :=
        fun hx => hdisj2 hx (List.mem_cons_self _ _)
      have hxnodrop : l.get ⟨l.length + 1 - cfg.maxBufferLength, hek⟩ ∉
          l.drop (l.length + 1 - cfg.maxBufferLength + 1) :=
        (List.nodup_cons.1 hndcons).1
      have hxa : l.get ⟨l.length + 1 - cfg.maxBufferLength, hek⟩ ≠ a :=
        fun hh => hanl (hh ▸ hxmem)
      have hxrange : l.get ⟨l.length + 1 - cfg.maxBufferLength, hek⟩ <
          (s1.ims.set a (some (resizeStep cfg rm im0, cfg.shapeOf im0,
            cfg.shapeOf (resizeStep cfg rm im0)))).length := by
        rw [List.length_set, hlen1]
        exact hrange _ (List.mem_append_left _ hxmem)
      have hbufA : s1.buffer ++ [a] =
          l.get ⟨l.length + 1 - cfg.maxBufferLength, hek⟩ ::
            (l.drop (l.length + 1 - cfg.maxBufferLength + 1) ++ [a]) := by
        rw [hbuf1, hdropCons]
        rfl
      have hcond : cfg.maxBufferLength ≤ (s1.buffer ++ [a]).length := by
        rw [hbuf1]
        simp only [List.length_append, List.length_cons, List.length_nil, List.length_drop]
        omega
      have hload : load cfg rm a s1 =
          some ((resizeStep cfg rm im0, cfg.shapeOf im0, cfg.shapeOf (resizeStep cfg rm im0)),
            ⟨(s1.ims.set a (some (resizeStep cfg rm im0, cfg.shapeOf im0,
                cfg.shapeOf (resizeStep cfg rm im0)))).set
              (l.get ⟨l.length + 1 - cfg.maxBufferLength, hek⟩) none,
              l.drop (l.length + 1 - cfg.maxBufferLength + 1) ++ [a]⟩) := by
        simp only [load, hsa, hdecA, haug, if_true, if_pos hcond]
        rw [hbufA]
        rfl
      have he' : (l ++ [a]).length + 1 - cfg.maxBufferLength =
          l.length + 1 - cfg.maxBufferLength + 1 := by
        simp only [List.length_append, List.length_cons, List.length_nil]
        omega
      have hesucc : l.length + 1 - cfg.maxBufferLength + 1 ≤ l.length := by omega
      refine ⟨_, by simp only [Option.some_bind, loadSeq, hload]; rfl, ?_, ?_, ?_, ?_, ?_⟩
      · simp only [List.length_set]
        exact hlen1
      · show l.drop (l.length + 1 - cfg.maxBufferLength + 1) ++ [a] = _
        rw [he', List.drop_append_of_le_length hesucc]
      · rw [he', List.take_append_of_le_length hesucc]
        intro i hi
        rw [List.take_succ, List.getElem?_eq_getElem hek] at hi
        rcases List.mem_append.1 hi with hitake | hix
        · have hil : i ∈ l := List.mem_of_mem_take hitake
          have hia : i ≠ a := fun hh => hanl (hh ▸ hil)
          have hix2 : i ≠ l.get ⟨l.length + 1 - cfg.maxBufferLength, hek⟩ :=
            fun hh => hxnotake (hh ▸ hitake)
          show slotOf ⟨_, _⟩ i = none
          rw [slot_set_ne _ _ (l.drop (l.length + 1 - cfg.maxBufferLength + 1) ++ [a]) _ i none
            (fun hh => hix2 hh.symm)]
          rw [slot_set_ne s1.ims _ s1.buffer a i _ (fun hh => hia hh.symm)]
          exact htake1 i hitake
        · have hix : i = l.get ⟨l.length + 1 - cfg.maxBufferLength, hek⟩ := by
            simpa using hix
          subst hix
          show slotOf ⟨_, _⟩ _ = none
          rw [slot_set_self _ (l.drop (l.length + 1 - cfg.maxBufferLength + 1) ++ [a]) _ none
            hxrange]
      · rw [he', List.drop_append_of_le_length hesucc]
        intro i hi
        rcases List.mem_append.1 hi with hidrop | hia
        · have hil : i ∈ l := List.mem_of_mem_drop hidrop
          have hia2 : i ≠ a := fun hh => hanl (hh ▸ hil)
          have hix2 : i ≠ l.get ⟨l.length + 1 - cfg.maxBufferLength, hek⟩ :=
            fun hh => hxnodrop (hh ▸ hidrop)
          show (slotOf ⟨_, _⟩ i).isSome = true
          rw [slot_set_ne _ _ (l.drop (l.length + 1 - cfg.maxBufferLength + 1) ++ [a]) _ i none
            (fun hh => hix2 hh.symm)]
          rw [slot_set_ne s1.ims _ s1.buffer a i _ (fun hh => hia2 hh.symm)]
          refine hdrop1 i ?_
          rw [hdropCons]
          exact List.mem_cons_of_mem _ hidrop
        · rw [List.mem_singleton] at hia
          subst hia
          show (slotOf ⟨_, _⟩ i).isSome = true
          rw [slot_set_ne _ _ (l.drop (l.length + 1 - cfg.maxBufferLength + 1) ++ [i]) _ i none
            hxa]
          rw [slot_set_self s1.ims _ i _ harange]
          rfl
      · intro j hj
        have hjl : j ∉ l := fun hh => hj (List.mem_append_left _ hh)
        have hja : j ≠ a := fun hh => hj (hh ▸ hamem)
        have hjx : j ≠ l.get ⟨l.length + 1 - cfg.maxBufferLength, hek⟩ :=
          fun hh => hjl (hh ▸ hxmem)
        show slotOf ⟨_, _⟩ j = slotOf s j
        rw [slot_set_ne _ _ (l.drop (l.length + 1 - cfg.maxBufferLength + 1) ++ [a]) _ j none
          (fun hh => hjx hh.symm)]
        rw [slot_set_ne s1.ims _ s1.buffer a j _ (fun hh => hja hh.symm)]
        exact hunch1 j hjl

theorem slot_initState (Img : Type) (ni i : ℕ) :
    slotOf (initState Img ni) i = none := by
  show (List.replicate ni (none : Option (CacheEntry Img))).getD i none = none
  rw [List.getD_eq_getElem?_getD, List.getElem?_replicate]
  split_ifs <;> rfl

/-- C1 (amended): over any load sequence from the initial state the ring
buffer never exceeds its bound `min(ni, 8 * batch_size, 1000)`; and since the
`>=` test of line 199 fires an eviction at every load from the
`max_buffer_length`-th on, loading `max_buffer_length + 1` distinct fresh
indices leaves exactly the two oldest (FIFO) slots absent again, with the
other `max_buffer_length - 1` loaded slots resident and the buffer holding
exactly those survivors. -/
theorem ring_buffer_bound_and_fifo_eviction (Img : Type) (cfg : LoadCfg Img) (rm : Bool) :
    (∀ (ni batch_size : ℕ) (l : List ℕ) (s' : LoadState Img),
      cfg.maxBufferLength = mkMaxBufferLength true ni batch_size →
      loadSeq cfg rm l (initState Img ni) = some s' →
      s'.buffer.length ≤ min ni (min (batch_size * 8) 1000)) ∧
    (∀ (ni : ℕ) (l : List ℕ),
      cfg.augment = true → 2 ≤ cfg.maxBufferLength →
      l.length = cfg.maxBufferLength + 1 →
      l.Nodup → (∀ i ∈ l, i < ni) →
      (∀ i ∈ l, (cfg.imdecode i).isSome = true) →
      ∃ s', loadSeq cfg rm l (initState Img ni) = some s' ∧
        (∀ i ∈ l.take 2, slotOf s' i = none) ∧
        (∀ i ∈ l.drop 2, (slotOf s' i).isSome = true) ∧
        s'.buffer = l.drop 2) := by
  constructor
  · intro ni batch_size l s' hmax hrun
    have hb0 : (initState Img ni).buffer.length ≤ cfg.maxBufferLength := by
      show (List.length ([] : List ℕ)) ≤ _
      simp
    have := loadSeq_buffer_le cfg rm l (initState Img ni) s' hrun hb0
    rw [hmax] at this
    simpa [mkMaxBufferLength] using this
  · intro ni l haug hM2 hlen hnd hrange hdec
    have hrange2 : ∀ i ∈ l, i < (initState Img ni).ims.length := by
      intro i hi
      show i < (List.replicate ni (none : Option (CacheEntry Img))).length
      rw [List.length_replicate]
      exact hrange i hi
    obtain ⟨s', hrun, -, hbuf, htake, hdrop, -⟩ :=
      loadSeq_fresh_run cfg rm haug hM2 l (initState Img ni) hnd hrange2
        (fun i _ => slot_initState Img ni i) hdec rfl
    have he2 : l.length + 1 - cfg.maxBufferLength = 2 := by omega
    rw [he2] at hbuf htake hdrop
    exact ⟨s', hrun, htake, hdrop, hbuf⟩

/-- Counterexample to C1 as stated: with `max_buffer_length = 3`, after
loading the `max_buffer_length + 1 = 4` distinct indices `0, 1, 2, 3`, the
slots of BOTH index 0 and index 1 are absent (while slots 2 and 3 are
resident), even though both 0 and 1 were resident after the first two loads —
so it is not the case that exactly one previously cached slot became absent:
eviction already fired at the third load because line 199 tests
`len(buffer) >= max_buffer_length` after the append. -/
theorem ring_buffer_eviction_counterexample :
    ((loadSeq demoCfg true [0, 1] (initState (ℕ × ℕ) 4)).map
      (fun s => ((slotOf s 0).isSome, (slotOf s 1).isSome)) = some (true, true)) ∧
    ((loadSeq demoCfg true [0, 1, 2, 3] (initState (ℕ × ℕ) 4)).map
      (fun s => ((slotOf s 0).isSome, (slotOf s 1).isSome, (slotOf s 2).isSome,
        (slotOf s 3).isSome)) = some (false, false, true, true)) := by
  decide

/-- Witness for C1 (amended) at `demoCfg` (`max_buffer_length = 3`): the
bound holds for a run of three loads with `ni = 3`, `batch_size = 1`, and the
run of the four distinct indices `0, 1, 2, 3` evicts exactly slots 0 and 1. -/
theorem ring_buffer_bound_and_fifo_eviction_witness :
    (∃ s2, loadSeq demoCfg true [0, 1, 2] (initState (ℕ × ℕ) 3) = some s2 ∧
      s2.buffer.length ≤ min 3 (min (1 * 8) 1000)) ∧
    (∃ s', loadSeq demoCfg true [0, 1, 2, 3] (initState (ℕ × ℕ) 4) = some s' ∧
      (∀ i ∈ ([0, 1, 2, 3] : List ℕ).take 2, slotOf s' i = none) ∧
      (∀ i ∈ ([0, 1, 2, 3] : List ℕ).drop 2, (slotOf s' i).isSome = true) ∧
      s'.buffer = ([0, 1, 2, 3] : List ℕ).drop 2) := by
  constructor
  · cases hh : loadSeq demoCfg true [0, 1, 2] (initState (ℕ × ℕ) 3) with
    | none =>
      have hs : (loadSeq demoCfg true [0, 1, 2] (initState (ℕ × ℕ) 3)).isSome = true := by
        decide
      rw [hh] at hs
      cases hs
    | some s2 =>
      exact ⟨s2, rfl,
        (ring_buffer_bound_and_fifo_eviction (ℕ × ℕ) demoCfg true).1 3 1 [0, 1, 2] s2
          (by decide) hh⟩
  · exact (ring_buffer_bound_and_fifo_eviction (ℕ × ℕ) demoCfg true).2 4 [0, 1, 2, 3]
      rfl (by decide) (by decide) (by decide) (by decide) (by decide)

end FoRA
